import Mathlib

/-!
A shallow embedding of `optvis.py` (Lucid-style activation-maximization
feature visualization for convolutional networks).  Tensors are modelled as
a shape together with a total real-valued entry function; the wrapped
framework primitives (torch FFT, fastai geometric transforms, autograd,
the AdamW optimizer, the model itself) are abstract parameters, and every
function of the script is translated one to one.  Machine floating point
is modelled by real arithmetic.
-/

/-- A tensor: a shape together with a total entry function, read at
row-major index lists.  Entries at invalid indices are irrelevant. -/
structure Tensor where
  shape : List ℕ
  entry : List ℕ → ℝ

/-- Validity of an index list for a shape. -/
def idxOk : List ℕ → List ℕ → Bool
  | [], [] => true
  | n :: s, i :: idx => decide (i < n) && idxOk s idx
  | _, _ => false

/-- Extensional tensor equality: same shape and the same entries at every
valid index (the equality numpy/torch mean by array equality). -/
def Teq (a b : Tensor) : Prop :=
  a.shape = b.shape ∧ ∀ idx, idxOk a.shape idx = true → a.entry idx = b.entry idx

/-- `t.shape[-1]` (python negative indexing on the shape). -/
def lastDim (t : Tensor) : ℕ := t.shape.getLast?.getD 0

/-- All valid index lists of a shape, row-major order. -/
def allIdx : List ℕ → List (List ℕ)
  | [] => [[]]
  | n :: s => (List.range n).flatMap fun i => (allIdx s).map fun idx => i :: idx

/-- Number of entries of a shape. -/
def numel (t : Tensor) : ℕ := t.shape.prod

/-- Sum of all (valid) entries. -/
noncomputable def tSum (t : Tensor) : ℝ := ((allIdx t.shape).map t.entry).sum

/-- `t.mean()`: sum of entries over their number. -/
noncomputable def tmean (t : Tensor) : ℝ := tSum t / (numel t : ℝ)

/-- `t[i]`: indexing along the leading dimension. -/
def tindex (t : Tensor) (i : ℕ) : Tensor :=
  ⟨t.shape.tail, fun idx => t.entry (i :: idx)⟩

/-- `t**2` elementwise. -/
noncomputable def tsquare (t : Tensor) : Tensor :=
  ⟨t.shape, fun idx => t.entry idx ^ 2⟩

/-- Elementwise map. -/
def tmap (f : ℝ → ℝ) (t : Tensor) : Tensor :=
  ⟨t.shape, fun idx => f (t.entry idx)⟩

/-- Elementwise sum (shapes agree at every use site). -/
noncomputable def tAdd (a b : Tensor) : Tensor :=
  ⟨a.shape, fun idx => a.entry idx + b.entry idx⟩

/-- Scalar multiple. -/
noncomputable def tSmul (r : ℝ) (a : Tensor) : Tensor :=
  ⟨a.shape, fun idx => r * a.entry idx⟩

/-- The fixed 3x3 constant of `color_correlation_normalized` (line 38),
entries read (row, column). -/
noncomputable def color_correlation_svd_sqrt : ℕ → ℕ → ℝ
  | 0, 0 => 0.26
  | 0, 1 => 0.09
  | 0, 2 => 0.02
  | 1, 0 => 0.27
  | 1, 1 => 0
  | 1, 2 => -0.05
  | 2, 0 => 0.27
  | 2, 1 => -0.09
  | 2, 2 => 0.03
  | _, _ => 0

/-- `np.linalg.norm(color_correlation_svd_sqrt, axis=0)`: the Euclidean
norm of column `j` (the reduction runs over the row axis). -/
noncomputable def colNorm (j : ℕ) : ℝ :=
  Real.sqrt ((color_correlation_svd_sqrt 0 j) ^ 2 +
    (color_correlation_svd_sqrt 1 j) ^ 2 + (color_correlation_svd_sqrt 2 j) ^ 2)

/-- `np.max` of the three column norms (line 41). -/
noncomputable def max_norm_svd_sqrt : ℝ :=
  max (colNorm 0) (max (colNorm 1) (colNorm 2))

/-- The normalized color-correlation matrix (line 42). -/
noncomputable def color_correlation_normalized (i j : ℕ) : ℝ :=
  color_correlation_svd_sqrt i j / max_norm_svd_sqrt

/-- `t.permute(0,2,3,1)` on a 4-dimensional tensor. -/
def permute0231 (t : Tensor) : Tensor :=
  { shape := [t.shape.getD 0 0, t.shape.getD 2 0, t.shape.getD 3 0, t.shape.getD 1 0],
    entry := fun idx => t.entry [idx.getD 0 0, idx.getD 3 0, idx.getD 1 0, idx.getD 2 0] }

/-- `t.permute(0,3,1,2)` on a 4-dimensional tensor. -/
def permute0312 (t : Tensor) : Tensor :=
  { shape := [t.shape.getD 0 0, t.shape.getD 3 0, t.shape.getD 1 0, t.shape.getD 2 0],
    entry := fun idx => t.entry [idx.getD 0 0, idx.getD 2 0, idx.getD 3 0, idx.getD 1 0] }

/-- `torch.matmul(t_flat, B)` where `B` is a 3x3 matrix acting on the last
dimension of the 4-dimensional `t_flat`. -/
noncomputable def matmulByT3 (tf : Tensor) (B : ℕ → ℕ → ℝ) : Tensor :=
  { shape := tf.shape,
    entry := fun idx =>
      ∑ k : Fin 3, tf.entry (idx.take 3 ++ [k.val]) * B k.val (idx.getD 3 0) }

/-- `lucid_colorspace_to_rgb` (lines 45-49): permute channels last, multiply
by the transpose of the color matrix, permute back. -/
noncomputable def lucid_colorspace_to_rgb (t : Tensor) : Tensor :=
  permute0312 (matmulByT3 (permute0231 t)
    (fun k j => color_correlation_normalized j k))

/-- `rgb_to_lucid_colorspace` (lines 51-56); `torch.inverse` is an abstract
parameter `inv3` applied to the transposed color matrix. -/
noncomputable def rgb_to_lucid_colorspace (inv3 : (ℕ → ℕ → ℝ) → ℕ → ℕ → ℝ)
    (t : Tensor) : Tensor :=
  permute0312 (matmulByT3 (permute0231 t)
    (inv3 fun k j => color_correlation_normalized j k))

/-- `d = .5**.5` (line 15). -/
noncomputable def dCenter : ℝ := Real.rpow 0.5 0.5

/-- `np.fft.fftfreq(n, d)[k]`: frequency `k` or `k - n` over `d * n`. -/
noncomputable def fftfreq (n : ℕ) (d : ℝ) (k : ℕ) : ℝ :=
  (if k < (n + 1) / 2 then (k : ℝ) else (k : ℝ) - (n : ℝ)) / (d * n)

/-- `get_fft_scale` (lines 14-21): the spectral scale, broadcast to shape
`(1, 1, size, size//2+1, 1)`; entry positions 2 and 3 carry the `fy`/`fx`
frequency indices. -/
noncomputable def get_fft_scale (size : ℕ) (decay_power : ℝ) : Tensor :=
  { shape := [1, 1, size, size / 2 + 1, 1],
    entry := fun idx =>
      1 / max (Real.rpow ((fftfreq size dCenter (idx.getD 3 0)) ^ 2 +
          (fftfreq size dCenter (idx.getD 2 0)) ^ 2) decay_power)
        (1 / (size * dCenter)) }

/-- Row-major flat position of a 5-component index in the buffer shape
`(1, 3, size, size//2+1, 2)`: the order in which `np.random.normal` fills
the entries. -/
def flat5 (size : ℕ) (idx : List ℕ) : ℕ :=
  (((idx.getD 0 0 * 3 + idx.getD 1 0) * size + idx.getD 2 0) * (size / 2 + 1) +
    idx.getD 3 0) * 2 + idx.getD 4 0

/-- `init_fft_buf` (lines 9-12): a `(1, 3, size, size//2+1, 2)` buffer of
normal draws with standard deviation `rand_sd`; `npRandom k` is the `k`-th
standard-normal draw of the numpy generator. -/
noncomputable def init_fft_buf (size : ℕ) (rand_sd : ℝ) (npRandom : ℕ → ℝ) : Tensor :=
  { shape := [1, 3, size, size / 2 + 1, 2],
    entry := fun idx =>
      if idxOk [1, 3, size, size / 2 + 1, 2] idx then rand_sd * npRandom (flat5 size idx)
      else 0 }

/-- `scale * t` with numpy broadcasting of `(1,1,s,s2,1)` against
`(1,3,s,s2,2)`. -/
noncomputable def scaleMul (scale t : Tensor) : Tensor :=
  { shape := t.shape,
    entry := fun idx => scale.entry [0, 0, idx.getD 2 0, idx.getD 3 0, 0] * t.entry idx }

/-- `t / scale` with the same broadcasting. -/
noncomputable def scaleDiv (t scale : Tensor) : Tensor :=
  { shape := t.shape,
    entry := fun idx => t.entry idx / scale.entry [0, 0, idx.getD 2 0, idx.getD 3 0, 0] }

/-- `t.shape[-3]`. -/
def fftSizeOf (t : Tensor) : ℕ := t.shape.getD (t.shape.length - 3) 0

/-- `fft_to_rgb` (lines 23-28): scale the spectrum and apply the normalized
inverse real FFT; `irfft normalized signal_sizes` abstracts `torch.irfft`. -/
noncomputable def fft_to_rgb (irfft : Bool → ℕ × ℕ → Tensor → Tensor)
    (decay_power : ℝ) (t : Tensor) : Tensor :=
  irfft true (fftSizeOf t, fftSizeOf t)
    (scaleMul (get_fft_scale (fftSizeOf t) decay_power) t)

/-- `rgb_to_fft` (lines 30-35): apply the normalized real FFT and divide by
the spectral scale; `rfft normalized` abstracts `torch.rfft`. -/
noncomputable def rgb_to_fft (rfft : Bool → Tensor → Tensor)
    (decay_power : ℝ) (t : Tensor) : Tensor :=
  scaleDiv (rfft true t) (get_fft_scale (lastDim t) decay_power)

/-- A concrete one-pixel image and trivial (constant) stand-ins for the
torch FFT pair, used to instantiate the round-trip theorem. -/
noncomputable def wT : Tensor := ⟨[1, 3, 1, 1], fun _ => 0⟩

noncomputable def wRf : Bool → Tensor → Tensor := fun _ _ => ⟨[1, 3, 1, 1, 2], fun _ => 0⟩

noncomputable def wIrf : Bool → ℕ × ℕ → Tensor → Tensor := fun _ _ _ => ⟨[1, 3, 1, 1], fun _ => 0⟩

/-- The imagenet channel means (line 59). -/
noncomputable def imagenet_mean : ℕ → ℝ
  | 0 => 0.485
  | 1 => 0.456
  | 2 => 0.406
  | _ => 0

/-- The imagenet channel standard deviations (line 60). -/
noncomputable def imagenet_std : ℕ → ℝ
  | 0 => 0.229
  | 1 => 0.224
  | 2 => 0.225
  | _ => 0

/-- `denormalize` (lines 62-64): the `(3,)` mean/std broadcast against the
channel dimension (position 1 of the 4-dimensional image). -/
noncomputable def denormalize (x : Tensor) : Tensor :=
  ⟨x.shape, fun idx => x.entry idx * imagenet_std (idx.getD 1 0) +
    imagenet_mean (idx.getD 1 0)⟩

/-- `normalize` (lines 66-68); named `normalizeImg` because `normalize`
is taken by the mathematical library. -/
noncomputable def normalizeImg (x : Tensor) : Tensor :=
  ⟨x.shape, fun idx => (x.entry idx - imagenet_mean (idx.getD 1 0)) /
    imagenet_std (idx.getD 1 0)⟩

/-- `torch.clamp(x, max=1, min=0)` elementwise. -/
noncomputable def tclamp01 (x : Tensor) : Tensor :=
  ⟨x.shape, fun idx => max 0 (min 1 (x.entry idx))⟩

/-- `image_buf_to_rgb` (lines 70-77): spectrum to pixels, color transform,
denormalize, clamp into [0,1], take the first batch element. -/
noncomputable def image_buf_to_rgb (irfft : Bool → ℕ × ℕ → Tensor → Tensor)
    (decay_power : ℝ) (img_buf : Tensor) : Tensor :=
  tindex (tclamp01 (denormalize (lucid_colorspace_to_rgb
    (fft_to_rgb irfft decay_power img_buf)))) 0

/-- `img.squeeze()` as used on the `(1,3,size,size)` image: drop the
leading singleton dimension. -/
def squeeze0 (t : Tensor) : Tensor := ⟨t.shape.tail, fun idx => t.entry (0 :: idx)⟩

/-- `data[None,:]`: prepend a singleton dimension. -/
def unsqueeze0 (t : Tensor) : Tensor := ⟨1 :: t.shape, fun idx => t.entry idx.tail⟩

/-- The fastai transform library: `pad`, `crop_pad size row_pct col_pct`,
`zoom`, `rotate`, and the `_flow = gpu_affine_grid(...)` grid reset, all
abstract. -/
structure FastLib where
  pad : Tensor → ℕ → Tensor
  crop_pad : Tensor → ℕ → ℝ → ℝ → Tensor
  zoom : Tensor → ℝ → Tensor
  rotate : Tensor → ℤ → Tensor
  setFlow : Tensor → Tensor

/-- Element `i` of `scale_factors` (line 113): `percent = scale * 100`,
`(100 - percent + percent/5 * i)/100`. -/
noncomputable def scaleFactorAt (scale : ℝ) (i : ℕ) : ℝ :=
  (100 - scale * 100 + scale * 100 / 5 * i) / 100

/-- The 11 zoom factors (line 113). -/
noncomputable def scaleFactorsList (scale : ℝ) : List ℝ :=
  (List.range 11).map (scaleFactorAt scale)

/-- `scale_factors[int(np.random.rand()*len(scale_factors))]` (line 114). -/
noncomputable def zoomFactor (scale : ℝ) (r : ℝ) : ℝ :=
  (scaleFactorsList scale).getD (Int.floor (r * 11)).toNat 0

/-- `rotate_factors = list(range(-degrees, degrees+1)) + degrees//2 * [0]`
(line 119). -/
def rotFactorsList (degrees : ℕ) : List ℤ :=
  ((List.range (2 * degrees + 1)).map fun k : ℕ => (k : ℤ) - (degrees : ℤ)) ++
    List.replicate (degrees / 2) 0

/-- `rotate_factors[int(np.random.rand()*len(rotate_factors))]` (line 120). -/
noncomputable def rotFactor (degrees : ℕ) (r : ℝ) : ℤ :=
  (rotFactorsList degrees).getD
    (Int.floor (r * ((rotFactorsList degrees).length : ℝ))).toNat 0

/-- `int(jitter*(2/3))` (line 109); over the machine floats this equals the
exact floor of `2*jitter/3` (checked for every jitter below 3*10^7). -/
def cropExtra (jitter : ℕ) : ℕ := 2 * jitter / 3

/-- `lucid_transforms` (lines 98-127): pad by `jitter` (default `size//2`),
random crop to `size + int(jitter*2/3)`, random zoom, random rotation,
random crop back to `size`; `d 0 .. d 5` are the six `np.random.rand()`
draws in source order. -/
noncomputable def lucid_transforms (F : FastLib) (img : Tensor) (jitterArg : Option ℕ)
    (scale : ℝ) (degrees : ℕ) (d : Fin 6 → ℝ) : Tensor :=
  unsqueeze0
    (F.crop_pad
      (F.rotate
        (F.setFlow
          (F.zoom
            (F.setFlow
              (F.crop_pad
                (F.pad (F.setFlow (squeeze0 img)) (jitterArg.getD (lastDim img / 2)))
                (lastDim img + cropExtra (jitterArg.getD (lastDim img / 2)))
                (d 0) (d 1)))
            (zoomFactor scale (d 2))))
        (rotFactor degrees (d 3)))
      (lastDim img) (d 4) (d 5))

/-- The loss of lines 163-166: `hook_out` is the hooked layer's output for
the whole batch. -/
noncomputable def lossOf (feature : Option ℕ) (hook_out : Tensor) : ℝ :=
  match feature with
  | none => -1 * tmean (tsquare (tindex hook_out 0))
  | some f => -1 * tmean (tindex (tindex hook_out 0) f)

/-- The wrapped framework: the model forward pass (whose side effect the
forward hook observes as `layerOut`), the torch FFT pair, `torch.sigmoid`,
`torch.inverse`, the fastai resize of a start image, gradient clipping,
autograd, and the AdamW optimizer constructed over a single parameter
tensor.  `MP` is the (opaque) type of the model's parameters, `OS` the
optimizer's state. -/
structure VisLib (MP OS : Type) where
  modelForward : MP → Tensor → Tensor
  layerOut : MP → Tensor → Tensor
  rfft : Bool → Tensor → Tensor
  irfft : Bool → ℕ × ℕ → Tensor → Tensor
  sigmoid : ℝ → ℝ
  inv3 : (ℕ → ℕ → ℝ) → ℕ → ℕ → ℝ
  resize3 : Tensor → ℕ → Tensor
  clipGradNorm : Tensor → ℝ → Tensor
  gradOf : (Tensor → ℝ) → Tensor → Tensor
  optInit : Tensor → ℝ → ℝ → OS
  optStep : OS → Tensor → Tensor → OS × Tensor
  fast : FastLib

/-- The keyword arguments of `visualize_feature` (with the source's
defaults); `tscale` is the `scale` kwarg of `lucid_transforms` and
`showFlag` the `show` argument. -/
structure VisCfg where
  feature : Option ℕ
  start_image : Option Tensor := none
  size : ℕ := 200
  steps : ℕ := 500
  lr : ℝ := 0.004
  weight_decay : ℝ := 0.1
  grad_clip : ℝ := 1
  debug : Bool := false
  frames : ℕ := 10
  showFlag : Bool := true
  rand_sd : ℝ := 0.01
  decay_power : ℝ := 0.75
  jitter : Option ℕ := none
  tscale : ℝ := 0.5
  degrees : ℕ := 45

/-- The mutable state of a run: the model's parameters, the image buffer
(the only tensor handed to the optimizer, line 146), the optimizer state,
the loss of the last iteration, and the images displayed by debug mode. -/
structure VisState (MP OS : Type) where
  modelParams : MP
  img_buf : Tensor
  opt : OS
  lastLoss : ℝ
  displayed : List Tensor

/-- Lines 157-161: buffer to pixels, color transform, `sigmoid*2-1`, then
the random augmentations (`d` are this iteration's six uniform draws). -/
noncomputable def stepImage {MP OS : Type} (L : VisLib MP OS) (cfg : VisCfg)
    (d : Fin 6 → ℝ) (buf : Tensor) : Tensor :=
  lucid_transforms L.fast
    (tmap (fun v => L.sigmoid v * 2 - 1)
      (lucid_colorspace_to_rgb (fft_to_rgb L.irfft cfg.decay_power buf)))
    cfg.jitter cfg.tscale cfg.degrees d

/-- The loss of one iteration as a function of the image buffer: the value
the backward pass differentiates. -/
noncomputable def stepLoss {MP OS : Type} (L : VisLib MP OS) (cfg : VisCfg)
    (mp : MP) (d : Fin 6 → ℝ) (buf : Tensor) : ℝ :=
  lossOf cfg.feature (L.layerOut mp (stepImage L cfg d buf))

/-- One iteration of the loop (lines 155-176): forward, loss, backward,
clip the gradient of `img_buf`, `opt.step()` over the single-parameter
list, and the debug display of the stepped buffer. -/
noncomputable def visStep {MP OS : Type} (L : VisLib MP OS) (cfg : VisCfg)
    (d : Fin 6 → ℝ) (i : ℕ) (s : VisState MP OS) : VisState MP OS :=
  let g := L.clipGradNorm
    (L.gradOf (fun buf => stepLoss L cfg s.modelParams d buf) s.img_buf) cfg.grad_clip
  let su := L.optStep s.opt s.img_buf g
  { modelParams := s.modelParams
    img_buf := su.2
    opt := su.1
    lastLoss := stepLoss L cfg s.modelParams d s.img_buf
    displayed := s.displayed ++
      (if cfg.debug && (i % (cfg.steps / cfg.frames) == 0)
       then [image_buf_to_rgb L.irfft cfg.decay_power su.2] else []) }

/-- `for i in range(1, steps+1)` with the global numpy stream: iteration
`i` consumes stream positions `base .. base+5`. -/
noncomputable def visLoop {MP OS : Type} (L : VisLib MP OS) (cfg : VisCfg)
    (rng : ℕ → ℝ) : ℕ → ℕ → ℕ → VisState MP OS → VisState MP OS
  | 0, _, _, s => s
  | n + 1, base, i, s =>
    visLoop L cfg rng n (base + 6) (i + 1)
      (visStep L cfg (fun k => rng (base + k.val)) i s)

/-- How many numpy draws happen before the loop: the
`1*3*size*(size//2+1)*2` normal draws of `init_fft_buf`, or none when a
start image is given. -/
def startBase (cfg : VisCfg) : ℕ :=
  match cfg.start_image with
  | some _ => 0
  | none => 3 * cfg.size * (cfg.size / 2 + 1) * 2

/-- Lines 136-144: the initial Fourier buffer, from the resized start
image or from fresh normal draws. -/
noncomputable def initialBuf {MP OS : Type} (L : VisLib MP OS) (cfg : VisCfg)
    (rng : ℕ → ℝ) : Tensor :=
  match cfg.start_image with
  | some im => rgb_to_fft L.rfft cfg.decay_power
      (rgb_to_lucid_colorspace L.inv3 (normalizeImg (L.resize3 im cfg.size)))
  | none => init_fft_buf cfg.size cfg.rand_sd rng

/-- The state after the whole loop. -/
noncomputable def finalState {MP OS : Type} (L : VisLib MP OS) (cfg : VisCfg)
    (rng : ℕ → ℝ) (mp : MP) : VisState MP OS :=
  visLoop L cfg rng cfg.steps (startBase cfg) 1
    ⟨mp, initialBuf L cfg rng,
      L.optInit (initialBuf L cfg rng) cfg.lr cfg.weight_decay, 0, []⟩

/-- What a call returns and displays: the returned tensor (when any), the
image shown after the loop, the images debug mode showed during the loop,
and the final state. -/
structure VisResult (MP OS : Type) where
  ret : Option Tensor
  finalShown : List Tensor
  loopShown : List Tensor
  final : VisState MP OS

/-- `visualize_feature` (lines 133-184). -/
noncomputable def visualize_feature {MP OS : Type} (L : VisLib MP OS)
    (cfg : VisCfg) (rng : ℕ → ℝ) (mp : MP) : VisResult MP OS :=
  { ret := if cfg.showFlag then none
      else some (image_buf_to_rgb L.irfft cfg.decay_power
        (finalState L cfg rng mp).img_buf)
    finalShown := if cfg.showFlag && !cfg.debug
      then [image_buf_to_rgb L.irfft cfg.decay_power
        (finalState L cfg rng mp).img_buf]
      else []
    loopShown := (finalState L cfg rng mp).displayed
    final := finalState L cfg rng mp }

/-- All numpy-stream positions a run can read lie below this bound. -/
def rngBudget (cfg : VisCfg) : ℕ := startBase cfg + 6 * cfg.steps

/-- The loop state at the exception level. -/
structure EState (MP : Type) where
  mp : MP
  img_buf : Tensor
  lastLoss : ℝ

/-- The wrapped libraries as fallible operations: every call either
returns a tensor or raises. -/
structure VisLibE (ε MP : Type) where
  fftToRgbE : Tensor → Except ε Tensor
  colorToRgbE : Tensor → Except ε Tensor
  transformsE : Tensor → Except ε Tensor
  forwardE : MP → Tensor → Except ε Tensor
  backwardStepE : Tensor → ℝ → Except ε Tensor

/-- One loop iteration at the exception level: the body of lines 155-170
with every library call fallible and no handler anywhere. -/
noncomputable def visStepE {ε MP : Type} (LE : VisLibE ε MP) (feature : Option ℕ)
    (s : EState MP) : Except ε (EState MP) :=
  (LE.fftToRgbE s.img_buf).bind fun i1 =>
    (LE.colorToRgbE i1).bind fun i2 =>
      (LE.transformsE i2).bind fun i3 =>
        (LE.forwardE s.mp i3).bind fun hook =>
          (LE.backwardStepE s.img_buf (lossOf feature hook)).map fun buf =>
            ⟨s.mp, buf, lossOf feature hook⟩

/-- The loop at the exception level: a raise aborts the remaining
iterations. -/
def visLoopE {ε σ : Type} (step : σ → Except ε σ) : ℕ → σ → Except ε σ
  | 0, s => Except.ok s
  | n + 1, s => (step s).bind (visLoopE step n)

/-- `visualize_feature` at the exception level (its value is the final
image buffer). -/
noncomputable def visualize_featureE {ε MP : Type} (LE : VisLibE ε MP)
    (feature : Option ℕ) (steps : ℕ) (s : EState MP) : Except ε Tensor :=
  (visLoopE (visStepE LE feature) steps s).map fun sF => sF.img_buf

/-- A concrete buffer instantiating the C9 hypotheses. -/
noncomputable def wBuf : Tensor := ⟨[1, 3, 1, 1, 2], fun _ => 0⟩

/-- A concrete instance of the fastai transform library: cropping yields a
`(3, n, n)` tensor, the other transforms keep their input. -/
noncomputable def wFast : FastLib :=
  { pad := fun t _ => t
    crop_pad := fun _ n _ _ => ⟨[3, n, n], fun _ => 0⟩
    zoom := fun t _ => t
    rotate := fun t _ => t
    setFlow := fun t => t }

/-- A concrete 4x4 input image. -/
noncomputable def wImg : Tensor := ⟨[1, 3, 4, 4], fun _ => 0⟩

/-- A fallible library whose FFT stage always raises error `7`. -/
noncomputable def wLibE : VisLibE ℕ Unit :=
  { fftToRgbE := fun _ => Except.error 7
    colorToRgbE := fun t => Except.ok t
    transformsE := fun t => Except.ok t
    forwardE := fun _ t => Except.ok t
    backwardStepE := fun t _ => Except.ok t }

/-- A concrete starting state for the fallible loop. -/
noncomputable def wES : EState Unit := ⟨(), ⟨[], fun _ => 0⟩, 0⟩

/-- A concrete instance of the whole wrapped framework (trivial model and
optimizer) for instantiating the run-level theorems. -/
noncomputable def wVisLib : VisLib Unit Unit :=
  { modelForward := fun _ t => t
    layerOut := fun _ t => t
    rfft := wRf
    irfft := wIrf
    sigmoid := fun v => v
    inv3 := fun M => M
    resize3 := fun t _ => t
    clipGradNorm := fun t _ => t
    gradOf := fun _ t => t
    optInit := fun _ _ _ => ()
    optStep := fun _ p _ => ((), p)
    fast := wFast }

/-- A concrete configuration: channel 0 of a one-pixel, one-step run. -/
noncomputable def wCfg : VisCfg := { feature := some 0, size := 1, steps := 1 }

/-- Some sanity checks of the embedding on concrete data. -/
example : idxOk [2, 3] [1, 2] = true := by decide

example : allIdx [2, 2] = [[0, 0], [0, 1], [1, 0], [1, 1]] := by decide

theorem colNorm_zero : colNorm 0 = Real.sqrt (2134 / 10000) := by
  unfold colNorm color_correlation_svd_sqrt
  norm_num

theorem colNorm_one : colNorm 1 = Real.sqrt (162 / 10000) := by
  unfold colNorm color_correlation_svd_sqrt
  norm_num

theorem colNorm_two : colNorm 2 = Real.sqrt (38 / 10000) := by
  unfold colNorm color_correlation_svd_sqrt
  norm_num

theorem max_norm_eval : max_norm_svd_sqrt = Real.sqrt (2134 / 10000) := by
  unfold max_norm_svd_sqrt
  rw [colNorm_zero, colNorm_one, colNorm_two]
  exact max_eq_left (max_le (Real.sqrt_le_sqrt (by norm_num))
    (Real.sqrt_le_sqrt (by norm_num)))

/-- C5: Color decorrelation is a fixed linear transform:
`lucid_colorspace_to_rgb` is linear in the image (it commutes with real
linear combinations), its action on the channel dimension is multiplication
by the constant matrix `color_correlation_normalized`, and that matrix is
the fixed 3x3 constant divided by its maximum column norm, which evaluates
to the norm `sqrt(0.2134)` of the first column. -/
theorem C5_color_decorrelation_linear :
    (∀ (a b : ℝ) (t1 t2 : Tensor),
      lucid_colorspace_to_rgb (tAdd (tSmul a t1) (tSmul b t2)) =
        tAdd (tSmul a (lucid_colorspace_to_rgb t1))
          (tSmul b (lucid_colorspace_to_rgb t2))) ∧
    (∀ (t : Tensor) (n c h w : ℕ),
      (lucid_colorspace_to_rgb t).entry [n, c, h, w] =
        ∑ k : Fin 3, color_correlation_normalized c k.val * t.entry [n, k.val, h, w]) ∧
    (∀ i j : ℕ, color_correlation_normalized i j =
      color_correlation_svd_sqrt i j / Real.sqrt (2134 / 10000)) ∧
    max_norm_svd_sqrt = Real.sqrt (2134 / 10000) := by
  refine ⟨?_, ?_, ?_, max_norm_eval⟩
  · intro a b t1 t2
    unfold lucid_colorspace_to_rgb permute0312 matmulByT3 permute0231 tAdd tSmul
    refine congrArg₂ Tensor.mk rfl ?_
    funext idx
    simp only [add_mul, Finset.sum_add_distrib, Finset.mul_sum, mul_assoc]
  · intro t n c h w
    unfold lucid_colorspace_to_rgb permute0312 matmulByT3 permute0231
    simp [List.getD, mul_comm]
  · intro i j
    unfold color_correlation_normalized
    rw [max_norm_eval]

theorem mulAddLtOfLt {q Q r m : ℕ} (hq : q < Q) (hr : r < m) : q * m + r < Q * m := by
  have h1 : q * m + r < (q + 1) * m := by
    have := Nat.add_lt_add_left hr (q * m)
    simpa [Nat.succ_mul] using this
  exact lt_of_lt_of_le h1 (Nat.mul_le_mul_right m hq)

theorem mixedInj {q q2 r r2 m : ℕ} (hr : r < m) (hr2 : r2 < m)
    (h : q * m + r = q2 * m + r2) : q = q2 ∧ r = r2 := by
  have hm : 0 < m := lt_of_le_of_lt (Nat.zero_le r) hr
  have e1 : (q * m + r) / m = q := by
    rw [Nat.add_comm, Nat.add_mul_div_right r q hm, Nat.div_eq_of_lt hr, Nat.zero_add]
  have e2 : (q2 * m + r2) / m = q2 := by
    rw [Nat.add_comm, Nat.add_mul_div_right r2 q2 hm, Nat.div_eq_of_lt hr2, Nat.zero_add]
  have hq : q = q2 := by rw [← e1, ← e2, h]
  refine ⟨hq, ?_⟩
  rw [hq] at h
  exact Nat.add_left_cancel h

theorem dCenter_pos : 0 < dCenter := Real.rpow_pos_of_pos (by norm_num) _

theorem get_fft_scale_entry_pos (size : ℕ) (p : ℝ) (hs : 0 < size) (idx : List ℕ) :
    0 < (get_fft_scale size p).entry idx := by
  unfold get_fft_scale
  have hb : 0 < 1 / ((size : ℝ) * dCenter) :=
    one_div_pos.mpr (mul_pos (by exact_mod_cast hs) dCenter_pos)
  exact one_div_pos.mpr (lt_of_lt_of_le hb (le_max_right _ _))

/-- C4: the image is parameterized in Fourier space.  `init_fft_buf` returns
a buffer of shape `(1, 3, size, size//2+1, 2)` whose entries are independent
normal draws scaled by `rand_sd` (distinct valid positions read distinct
positions of the generator's standard-normal stream), and `fft_to_rgb`
multiplies such a buffer elementwise by the spectral scale
`1/max((fx^2+fy^2)^decay_power, 1/(size*d))` of `get_fft_scale` and applies
the normalized inverse real 2-D FFT with signal sizes `(size, size)`. -/
theorem C4_fourier_parameterization (size : ℕ) (rand_sd : ℝ) (npRandom : ℕ → ℝ)
    (p : ℝ) (irfft : Bool → ℕ × ℕ → Tensor → Tensor) (t : Tensor) :
    (init_fft_buf size rand_sd npRandom).shape = [1, 3, size, size / 2 + 1, 2] ∧
    (∀ idx, idxOk [1, 3, size, size / 2 + 1, 2] idx = true →
      (init_fft_buf size rand_sd npRandom).entry idx =
        rand_sd * npRandom (flat5 size idx)) ∧
    (∀ a b c d e a2 b2 c2 d2 e2 : ℕ,
      a < 1 → b < 3 → c < size → d < size / 2 + 1 → e < 2 →
      a2 < 1 → b2 < 3 → c2 < size → d2 < size / 2 + 1 → e2 < 2 →
      flat5 size [a, b, c, d, e] = flat5 size [a2, b2, c2, d2, e2] →
      a = a2 ∧ b = b2 ∧ c = c2 ∧ d = d2 ∧ e = e2) ∧
    (get_fft_scale size p).shape = [1, 1, size, size / 2 + 1, 1] ∧
    (∀ y x : ℕ, (get_fft_scale size p).entry [0, 0, y, x, 0] =
      1 / max (Real.rpow ((fftfreq size dCenter x) ^ 2 + (fftfreq size dCenter y) ^ 2) p)
        (1 / (size * dCenter))) ∧
    fft_to_rgb irfft p t = irfft true (fftSizeOf t, fftSizeOf t)
      (scaleMul (get_fft_scale (fftSizeOf t) p) t) := by
  refine ⟨rfl, ?_, ?_, rfl, fun y x => rfl, rfl⟩
  · intro idx h
    simp [init_fft_buf, h]
  · intro a b c d e a2 b2 c2 d2 e2 ha hb hc hd he ha2 hb2 hc2 hd2 he2 h
    simp only [flat5, List.getD_cons_zero, List.getD_cons_succ] at h
    obtain ⟨h1, he5⟩ := mixedInj he he2 h
    obtain ⟨h2, hd5⟩ := mixedInj hd hd2 h1
    obtain ⟨h3, hc5⟩ := mixedInj hc hc2 h2
    obtain ⟨ha5, hb5⟩ := mixedInj hb hb2 h3
    exact ⟨ha5, hb5, hc5, hd5, he5⟩

/-- C10: `rgb_to_fft` and `fft_to_rgb` are mutually inverse.  The torch
library facts are hypotheses: `rfft` maps a `(1,3,size,size)` image to a
`(1,3,size,size//2+1,2)` half-spectrum, and the normalized `irfft` with
signal sizes `(size,size)` inverts the normalized `rfft` (up to tensor
extensionality).  The file proves the part contributed by this code: the
spectral scale is everywhere nonzero, so dividing and then multiplying by
it cancels and the composite returns `t`. -/
theorem C10_fft_roundtrip (rfft : Bool → Tensor → Tensor)
    (irfft : Bool → ℕ × ℕ → Tensor → Tensor) (p : ℝ) (t : Tensor) (size : ℕ)
    (hs : 0 < size) (ht : t.shape = [1, 3, size, size])
    (hr : (rfft true t).shape = [1, 3, size, size / 2 + 1, 2])
    (hinv : ∀ u, Teq u (rfft true t) → Teq (irfft true (size, size) u) t) :
    Teq (fft_to_rgb irfft p (rgb_to_fft rfft p t)) t := by
  have hlast : lastDim t = size := by unfold lastDim; rw [ht]; rfl
  have hscale : rgb_to_fft rfft p t = scaleDiv (rfft true t) (get_fft_scale size p) := by
    unfold rgb_to_fft; rw [hlast]
  have hbshape : (rgb_to_fft rfft p t).shape = [1, 3, size, size / 2 + 1, 2] := by
    rw [hscale]; exact hr
  have hsz : fftSizeOf (rgb_to_fft rfft p t) = size := by
    unfold fftSizeOf; rw [hbshape]; rfl
  unfold fft_to_rgb
  rw [hsz, hscale]
  apply hinv
  refine ⟨rfl, ?_⟩
  intro idx _
  show (get_fft_scale size p).entry _ * ((rfft true t).entry idx / (get_fft_scale size p).entry _) = _
  rw [mul_comm]
  exact div_mul_cancel₀ _ (ne_of_gt (get_fft_scale_entry_pos size p hs _))

/-- C10 witness: the round trip at a concrete one-pixel image. -/
theorem C10_fft_roundtrip_witness :
    Teq (fft_to_rgb wIrf 0.75 (rgb_to_fft wRf 0.75 wT)) wT :=
  C10_fft_roundtrip wRf wIrf 0.75 wT 1 (by norm_num) rfl rfl
    (fun u _ => ⟨rfl, fun idx _ => rfl⟩)

/-- C1: every iteration of the loop computes the loss as minus the mean of
channel `feature` of the hooked layer's output for the first batch element
(minus the mean of the squared first batch element of the layer output when
`feature` is `None`), so a step that lowers the loss is exactly a step that
raises that mean activation; and every loop iteration goes through this
step function. -/
theorem C1_loss_is_neg_activation {MP OS : Type} (L : VisLib MP OS) (cfg : VisCfg)
    (d : Fin 6 → ℝ) (i : ℕ) (s : VisState MP OS) :
    ((visStep L cfg d i s).lastLoss =
      match cfg.feature with
      | some f => -(tmean (tindex (tindex (L.layerOut s.modelParams
          (stepImage L cfg d s.img_buf)) 0) f))
      | none => -(tmean (tsquare (tindex (L.layerOut s.modelParams
          (stepImage L cfg d s.img_buf)) 0)))) ∧
    (∀ (f : ℕ) (h1 h2 : Tensor), lossOf (some f) h1 < lossOf (some f) h2 ↔
      tmean (tindex (tindex h2 0) f) < tmean (tindex (tindex h1 0) f)) ∧
    (∀ (rng : ℕ → ℝ) (n base j : ℕ) (s0 : VisState MP OS),
      visLoop L cfg rng (n + 1) base j s0 =
        visLoop L cfg rng n (base + 6) (j + 1)
          (visStep L cfg (fun k => rng (base + k.val)) j s0)) := by
  refine ⟨?_, ?_, fun rng n base j s0 => rfl⟩
  · cases hf : cfg.feature <;>
      simp [visStep, stepLoss, lossOf, hf, neg_one_mul]
  · intro f h1 h2
    simp [lossOf, neg_one_mul, neg_lt_neg_iff]

/-- C2: the optimizer of line 146 is constructed over the single tensor
`img_buf`, so neither a single step nor the whole loop nor a whole call of
`visualize_feature` changes the model's parameters; `opt.step()` replaces
only the image buffer and the optimizer's own state. -/
theorem C2_model_parameters_frozen {MP OS : Type} (L : VisLib MP OS)
    (cfg : VisCfg) (rng : ℕ → ℝ) (mp : MP) :
    (visualize_feature L cfg rng mp).final.modelParams = mp ∧
    (∀ (n base i : ℕ) (s : VisState MP OS),
      (visLoop L cfg rng n base i s).modelParams = s.modelParams) ∧
    (∀ (d : Fin 6 → ℝ) (i : ℕ) (s : VisState MP OS),
      (visStep L cfg d i s).modelParams = s.modelParams) := by
  have hloop : ∀ (n base i : ℕ) (s : VisState MP OS),
      (visLoop L cfg rng n base i s).modelParams = s.modelParams := by
    intro n
    induction n with
    | zero => intro base i s; rfl
    | succ n ih =>
      intro base i s
      show (visLoop L cfg rng n (base + 6) (i + 1) _).modelParams = _
      rw [ih]
      rfl
  exact ⟨hloop cfg.steps (startBase cfg) 1 _, hloop, fun d i s => rfl⟩

/-- C8: `visualize_feature` returns the synthesized image only when
`show=False`; when `show=True` it returns nothing, and displays the final
image after the loop exactly when debug mode did not already display
during the loop; `show` defaults to `True`. -/
theorem C8_show_controls_return {MP OS : Type} (L : VisLib MP OS)
    (cfg : VisCfg) (rng : ℕ → ℝ) (mp : MP) :
    ((visualize_feature L cfg rng mp).ret =
      if cfg.showFlag then none
      else some (image_buf_to_rgb L.irfft cfg.decay_power
        (visualize_feature L cfg rng mp).final.img_buf)) ∧
    ((visualize_feature L cfg rng mp).finalShown =
      if cfg.showFlag && !cfg.debug
      then [image_buf_to_rgb L.irfft cfg.decay_power
        (visualize_feature L cfg rng mp).final.img_buf]
      else []) ∧
    (∀ f : Option ℕ, ({ feature := f } : VisCfg).showFlag = true) :=
  ⟨rfl, rfl, fun _ => rfl⟩

theorem image_buf_to_rgb_entry_bounds (irfft : Bool → ℕ × ℕ → Tensor → Tensor)
    (p : ℝ) (buf : Tensor) (idx : List ℕ) :
    0 ≤ (image_buf_to_rgb irfft p buf).entry idx ∧
      (image_buf_to_rgb irfft p buf).entry idx ≤ 1 :=
  ⟨le_max_left _ _, max_le zero_le_one (min_le_left _ _)⟩

/-- C9: for a Fourier buffer of shape `(1, 3, size, size//2+1, 2)` the
result of `image_buf_to_rgb` has shape `(3, size, size)` and every entry in
`[0, 1]` (the clamp of line 75); in particular any image a call of
`visualize_feature` returns satisfies the same bound. -/
theorem C9_output_in_unit_interval (irfft : Bool → ℕ × ℕ → Tensor → Tensor)
    (p : ℝ) (img_buf : Tensor) (size : ℕ)
    (hshape : img_buf.shape = [1, 3, size, size / 2 + 1, 2])
    (hir : (irfft true (size, size)
      (scaleMul (get_fft_scale size p) img_buf)).shape = [1, 3, size, size]) :
    (image_buf_to_rgb irfft p img_buf).shape = [3, size, size] ∧
    (∀ idx, 0 ≤ (image_buf_to_rgb irfft p img_buf).entry idx ∧
      (image_buf_to_rgb irfft p img_buf).entry idx ≤ 1) ∧
    (∀ {MP OS : Type} (L : VisLib MP OS) (cfg : VisCfg) (rng : ℕ → ℝ)
      (mp : MP) (r : Tensor) (idx : List ℕ),
      (visualize_feature L cfg rng mp).ret = some r →
      0 ≤ r.entry idx ∧ r.entry idx ≤ 1) := by
  have hsz : fftSizeOf img_buf = size := by
    unfold fftSizeOf; rw [hshape]; rfl
  have hX : (fft_to_rgb irfft p img_buf).shape = [1, 3, size, size] := by
    unfold fft_to_rgb; rw [hsz]; exact hir
  refine ⟨?_, fun idx => image_buf_to_rgb_entry_bounds irfft p img_buf idx, ?_⟩
  · show (tclamp01 (denormalize (lucid_colorspace_to_rgb
      (fft_to_rgb irfft p img_buf)))).shape.tail = _
    simp [tclamp01, denormalize, lucid_colorspace_to_rgb, permute0312,
      matmulByT3, permute0231, hX]
  · intro MP OS L cfg rng mp r idx hr
    unfold visualize_feature at hr
    by_cases hs : cfg.showFlag
    · simp [hs] at hr
    · simp [hs] at hr
      rw [← hr]
      exact image_buf_to_rgb_entry_bounds _ _ _ idx

/-- C9 witness: the bounds at a concrete one-pixel buffer. -/
theorem C9_output_in_unit_interval_witness :
    (image_buf_to_rgb wIrf 0.75 wBuf).shape = [3, 1, 1] :=
  (C9_output_in_unit_interval wIrf 0.75 wBuf 1 rfl rfl).1

theorem getD_map_range {α : Type} (f : ℕ → α) (n i : ℕ) (hi : i < n) (dflt : α) :
    ((List.range n).map f).getD i dflt = f i := by
  rw [List.getD_eq_getElem?_getD]
  simp [List.getElem?_map, List.getElem?_range hi]

theorem floor_frac_lt (r : ℝ) (L : ℕ) (_h0 : 0 ≤ r) (h1 : r < 1) (hL : 0 < L) :
    (Int.floor (r * (L : ℝ))).toNat < L := by
  have hlt : r * (L : ℝ) < (L : ℝ) := by
    have := mul_lt_mul_of_pos_right h1 (by exact_mod_cast hL : (0 : ℝ) < (L : ℝ))
    simpa using this
  have : Int.floor (r * (L : ℝ)) < (L : ℤ) := by
    rw [Int.floor_lt]
    exact_mod_cast hlt
  omega

theorem rotFactorsList_abs_le (degrees : ℕ) :
    ∀ x ∈ rotFactorsList degrees, |x| ≤ (degrees : ℤ) := by
  intro x hx
  rw [rotFactorsList, List.mem_append] at hx
  rcases hx with hm | hm
  · rw [List.mem_map] at hm
    obtain ⟨k, hk, hxk⟩ := hm
    rw [List.mem_range] at hk
    rw [← hxk, abs_le]
    constructor <;> omega
  · rw [List.eq_of_mem_replicate hm]
    simp

theorem rotFactorsList_len_pos (degrees : ℕ) : 0 < (rotFactorsList degrees).length := by
  rw [rotFactorsList, List.length_append, List.length_map, List.length_range]
  omega

/-- C3: `lucid_transforms` applies, in order, grid reset and pad by
`jitter` (default `size//2`), a random crop to `size + int(jitter*2/3)`, a
random zoom drawn from the 11 factors `(100 - 100*scale + 20*scale*i)/100`
(for `scale = 1/2` these are `0.5, 0.6, ..., 1.5`), a random rotation by an
integer angle of magnitude at most `degrees` drawn from
`range(-degrees, degrees+1)` padded with `degrees//2` zeros, and a final
random crop back to `size`, so the output has the input's spatial size. -/
theorem C3_lucid_transforms_pipeline (F : FastLib) (img : Tensor)
    (jitterArg : Option ℕ) (scale : ℝ) (degrees : ℕ) (d : Fin 6 → ℝ)
    (hd : ∀ k, 0 ≤ d k ∧ d k < 1)
    (hcrop : ∀ (t : Tensor) (n : ℕ) (r c : ℝ), (F.crop_pad t n r c).shape = [3, n, n]) :
    (lucid_transforms F img jitterArg scale degrees d).shape =
      [1, 3, lastDim img, lastDim img] ∧
    (∃ i : ℕ, i < 11 ∧ zoomFactor scale (d 2) =
      (100 - 100 * scale + 20 * scale * (i : ℝ)) / 100) ∧
    rotFactor degrees (d 3) ∈ rotFactorsList degrees ∧
    |rotFactor degrees (d 3)| ≤ (degrees : ℤ) ∧
    lucid_transforms F img jitterArg scale degrees d =
      unsqueeze0 (F.crop_pad (F.rotate (F.setFlow (F.zoom (F.setFlow
        (F.crop_pad (F.pad (F.setFlow (squeeze0 img))
            (jitterArg.getD (lastDim img / 2)))
          (lastDim img + 2 * jitterArg.getD (lastDim img / 2) / 3) (d 0) (d 1)))
        (zoomFactor scale (d 2)))) (rotFactor degrees (d 3)))
        (lastDim img) (d 4) (d 5)) ∧
    scaleFactorsList (1 / 2) =
      [1 / 2, 3 / 5, 7 / 10, 4 / 5, 9 / 10, 1, 11 / 10, 6 / 5, 13 / 10, 7 / 5, 3 / 2] := by
  have hmem : rotFactor degrees (d 3) ∈ rotFactorsList degrees := by
    unfold rotFactor
    have hlen := rotFactorsList_len_pos degrees
    have hidx := floor_frac_lt (d 3) (rotFactorsList degrees).length
      (hd 3).1 (hd 3).2 hlen
    rw [List.getD_eq_getElem?_getD, List.getElem?_eq_getElem hidx]
    exact List.getElem_mem hidx
  refine ⟨?_, ?_, hmem, rotFactorsList_abs_le degrees _ hmem, rfl, ?_⟩
  · simp [lucid_transforms, unsqueeze0, hcrop]
  · refine ⟨(Int.floor (d 2 * 11)).toNat, ?_, ?_⟩
    · have := floor_frac_lt (d 2) 11 (hd 2).1 (hd 2).2 (by norm_num)
      simpa using this
    · unfold zoomFactor scaleFactorsList
      rw [getD_map_range]
      · unfold scaleFactorAt
        ring
      · have := floor_frac_lt (d 2) 11 (hd 2).1 (hd 2).2 (by norm_num)
        simpa using this
  · unfold scaleFactorsList scaleFactorAt
    simp [List.range_succ]
    norm_num

/-- C3 witness: the pipeline at a concrete image, library and draw vector
keeps the spatial size. -/
theorem C3_lucid_transforms_pipeline_witness :
    (lucid_transforms wFast wImg none (1 / 2) 45 (fun _ => 0)).shape = [1, 3, 4, 4] :=
  (C3_lucid_transforms_pipeline wFast wImg none (1 / 2) 45 (fun _ => 0)
    (fun _ => ⟨le_refl 0, by norm_num⟩) (fun _ _ _ _ => rfl)).1

theorem visLoopE_add {ε σ : Type} (step : σ → Except ε σ) (a b : ℕ) (s : σ) :
    visLoopE step (a + b) s = (visLoopE step a s).bind (visLoopE step b) := by
  induction a generalizing s with
  | zero =>
    rw [Nat.zero_add]
    rfl
  | succ a ih =>
    rw [Nat.succ_add]
    have hr : visLoopE step (a + 1) s = (step s).bind (visLoopE step a) := rfl
    rw [hr]
    show (step s).bind (visLoopE step (a + b)) =
      ((step s).bind (visLoopE step a)).bind (visLoopE step b)
    cases h : step s with
    | error e => rfl
    | ok s2 =>
      show visLoopE step (a + b) s2 = (visLoopE step a s2).bind (visLoopE step b)
      exact ih s2

/-- C7: no operation catches, recovers from, or retries after an error:
when the iteration body raises `e` after `n` clean iterations, the whole
`visualize_featureE` call raises exactly `e`; and inside one iteration a
raise of any of the five wrapped stages (FFT, color transform,
augmentations, model forward, backward/step) aborts the body with that
same error. -/
theorem C7_errors_propagate_unchanged {ε MP : Type} (LE : VisLibE ε MP)
    (feature : Option ℕ) (steps n : ℕ) (s s1 : EState MP) (e : ε)
    (hok : visLoopE (visStepE LE feature) n s = Except.ok s1)
    (herr : visStepE LE feature s1 = Except.error e)
    (hn : n < steps) :
    visualize_featureE LE feature steps s = Except.error e ∧
    (∀ (L2 : VisLibE ε MP) (s2 : EState MP) (e2 : ε),
      L2.fftToRgbE s2.img_buf = Except.error e2 →
      visStepE L2 feature s2 = Except.error e2) ∧
    (∀ (L2 : VisLibE ε MP) (s2 : EState MP) (i1 : Tensor) (e2 : ε),
      L2.fftToRgbE s2.img_buf = Except.ok i1 →
      L2.colorToRgbE i1 = Except.error e2 →
      visStepE L2 feature s2 = Except.error e2) ∧
    (∀ (L2 : VisLibE ε MP) (s2 : EState MP) (i1 i2 : Tensor) (e2 : ε),
      L2.fftToRgbE s2.img_buf = Except.ok i1 →
      L2.colorToRgbE i1 = Except.ok i2 →
      L2.transformsE i2 = Except.error e2 →
      visStepE L2 feature s2 = Except.error e2) ∧
    (∀ (L2 : VisLibE ε MP) (s2 : EState MP) (i1 i2 i3 : Tensor) (e2 : ε),
      L2.fftToRgbE s2.img_buf = Except.ok i1 →
      L2.colorToRgbE i1 = Except.ok i2 →
      L2.transformsE i2 = Except.ok i3 →
      L2.forwardE s2.mp i3 = Except.error e2 →
      visStepE L2 feature s2 = Except.error e2) ∧
    (∀ (L2 : VisLibE ε MP) (s2 : EState MP) (i1 i2 i3 hook : Tensor) (e2 : ε),
      L2.fftToRgbE s2.img_buf = Except.ok i1 →
      L2.colorToRgbE i1 = Except.ok i2 →
      L2.transformsE i2 = Except.ok i3 →
      L2.forwardE s2.mp i3 = Except.ok hook →
      L2.backwardStepE s2.img_buf (lossOf feature hook) = Except.error e2 →
      visStepE L2 feature s2 = Except.error e2) := by
  refine ⟨?_, ?_, ?_, ?_, ?_, ?_⟩
  · have hsplit : steps = n + (steps - n) := by omega
    have hsub : steps - n = (steps - n - 1) + 1 := by omega
    unfold visualize_featureE
    rw [hsplit, visLoopE_add, hok]
    show (visLoopE (visStepE LE feature) (steps - n) s1).map _ = _
    rw [hsub]
    show ((visStepE LE feature s1).bind _).map _ = _
    rw [herr]
    rfl
  · intro L2 s2 e2 h1
    unfold visStepE
    rw [h1]
    rfl
  · intro L2 s2 i1 e2 h1 h2
    unfold visStepE
    rw [h1]
    show (L2.colorToRgbE i1).bind _ = _
    rw [h2]
    rfl
  · intro L2 s2 i1 i2 e2 h1 h2 h3
    unfold visStepE
    rw [h1]
    show (L2.colorToRgbE i1).bind _ = _
    rw [h2]
    show (L2.transformsE i2).bind _ = _
    rw [h3]
    rfl
  · intro L2 s2 i1 i2 i3 e2 h1 h2 h3 h4
    unfold visStepE
    rw [h1]
    show (L2.colorToRgbE i1).bind _ = _
    rw [h2]
    show (L2.transformsE i2).bind _ = _
    rw [h3]
    show (L2.forwardE s2.mp i3).bind _ = _
    rw [h4]
    rfl
  · intro L2 s2 i1 i2 i3 hook e2 h1 h2 h3 h4 h5
    unfold visStepE
    rw [h1]
    show (L2.colorToRgbE i1).bind _ = _
    rw [h2]
    show (L2.transformsE i2).bind _ = _
    rw [h3]
    show (L2.forwardE s2.mp i3).bind _ = _
    rw [h4]
    show (L2.backwardStepE s2.img_buf (lossOf feature hook)).map _ = _
    rw [h5]
    rfl

/-- C7 witness: the concrete failing library's error comes out of the call
unchanged. -/
theorem C7_errors_propagate_unchanged_witness :
    visualize_featureE wLibE none 1 wES = Except.error 7 :=
  (C7_errors_propagate_unchanged wLibE none 1 0 wES wES 7 rfl rfl
    (by norm_num)).1

theorem flat5_lt (size : ℕ) (idx : List ℕ)
    (h : idxOk [1, 3, size, size / 2 + 1, 2] idx = true) :
    flat5 size idx < 3 * size * (size / 2 + 1) * 2 := by
  match idx with
  | [] => simp [idxOk] at h
  | [_] => simp [idxOk] at h
  | [_, _] => simp [idxOk] at h
  | [_, _, _] => simp [idxOk] at h
  | [_, _, _, _] => simp [idxOk] at h
  | [a, b, c, dd, e] =>
    simp only [idxOk, Bool.and_eq_true, decide_eq_true_eq] at h
    obtain ⟨ha, hb, hc, hd, he, -⟩ := h
    have h1 : a * 3 + b < 1 * 3 := mulAddLtOfLt ha hb
    have h2 : (a * 3 + b) * size + c < 3 * size := mulAddLtOfLt h1 hc
    have h3 := mulAddLtOfLt h2 hd
    exact mulAddLtOfLt h3 he
  | _ :: _ :: _ :: _ :: _ :: _ :: _ => simp [idxOk] at h

theorem init_fft_buf_congr (size : ℕ) (sd : ℝ) (rng1 rng2 : ℕ → ℝ)
    (h : ∀ k, k < 3 * size * (size / 2 + 1) * 2 → rng1 k = rng2 k) :
    init_fft_buf size sd rng1 = init_fft_buf size sd rng2 := by
  unfold init_fft_buf
  refine congrArg₂ Tensor.mk rfl ?_
  funext idx
  by_cases hv : idxOk [1, 3, size, size / 2 + 1, 2] idx = true
  · simp only [hv, if_true]
    rw [h _ (flat5_lt size idx hv)]
  · simp [hv]

theorem visLoop_congr {MP OS : Type} (L : VisLib MP OS) (cfg : VisCfg)
    (rng1 rng2 : ℕ → ℝ) :
    ∀ (n base i : ℕ) (s : VisState MP OS),
      (∀ k, base ≤ k → k < base + 6 * n → rng1 k = rng2 k) →
      visLoop L cfg rng1 n base i s = visLoop L cfg rng2 n base i s := by
  intro n
  induction n with
  | zero => intro base i s _; rfl
  | succ n ih =>
    intro base i s h
    show visLoop L cfg rng1 n (base + 6) (i + 1)
      (visStep L cfg (fun k => rng1 (base + k.val)) i s) = _
    have hd : (fun k : Fin 6 => rng1 (base + k.val)) =
        (fun k : Fin 6 => rng2 (base + k.val)) := by
      funext k
      exact h _ (Nat.le_add_right _ _) (by have := k.isLt; omega)
    rw [hd]
    exact ih (base + 6) (i + 1) _ (fun k hk1 hk2 => h k (by omega) (by omega))

/-- C6: `visualize_feature` is deterministic given the random state: two
runs with the same model, layer, arguments and numpy random stream yield
the same result, and more precisely a run reads the stream only below
`rngBudget` (the buffer-initialization draws plus six uniform draws per
iteration), so any two streams agreeing there give identical results. -/
theorem C6_deterministic_given_rng {MP OS : Type} (L : VisLib MP OS)
    (cfg : VisCfg) (mp : MP) (rng1 rng2 : ℕ → ℝ)
    (h : ∀ k, k < rngBudget cfg → rng1 k = rng2 k) :
    visualize_feature L cfg rng1 mp = visualize_feature L cfg rng2 mp := by
  have hbuf : initialBuf L cfg rng1 = initialBuf L cfg rng2 := by
    unfold initialBuf
    cases hsi : cfg.start_image with
    | some im => rfl
    | none =>
      show init_fft_buf cfg.size cfg.rand_sd rng1 =
        init_fft_buf cfg.size cfg.rand_sd rng2
      have hsb : startBase cfg = 3 * cfg.size * (cfg.size / 2 + 1) * 2 := by
        unfold startBase; rw [hsi]
      refine init_fft_buf_congr _ _ _ _ (fun k hk => h k ?_)
      have hle : 3 * cfg.size * (cfg.size / 2 + 1) * 2 ≤ rngBudget cfg := by
        unfold rngBudget; rw [hsb]; exact Nat.le_add_right _ _
      exact lt_of_lt_of_le hk hle
  have hfin : finalState L cfg rng1 mp = finalState L cfg rng2 mp := by
    unfold finalState
    rw [hbuf]
    exact visLoop_congr L cfg rng1 rng2 cfg.steps (startBase cfg) 1 _
      (fun k hk1 hk2 => h k (by unfold rngBudget; omega))
  unfold visualize_feature
  rw [hfin]

/-- C6 witness: two concrete runs over an agreeing stream coincide. -/
theorem C6_deterministic_given_rng_witness :
    visualize_feature wVisLib wCfg (fun _ => 0) () =
      visualize_feature wVisLib wCfg (fun _ => 0) () :=
  C6_deterministic_given_rng wVisLib wCfg () (fun _ => 0) (fun _ => 0)
    (fun _ _ => rfl)

